import Mathlib

/-!
Shallow embedding of the reproducible logic of the `GOs` repository
(`app.py`, a Chainlit chat front-end, and `upload_files.py`, a one-time
ingestion script), together with theorems settling the specification
claims about that logic.

Conventions of the embedding:
* Python dictionary/spreadsheet cell values are modelled by `PyVal`
  (`None`, `int`, `str`); Python truthiness by `PyVal.truthy`.
* Python byte strings are `List Nat` (each element `< 256` in practice);
  Python text strings are Lean `String`s, converted to their list of
  code points where byte-level operations are involved.
* The remote Gemini service is an oracle: its answers (operation states,
  poll outcomes, generated responses) are inputs to the embedded
  functions, which model exactly the repository's own bookkeeping.
-/

namespace GOs

/-! ## Python value model -/

/-- A Python value as it appears in a spreadsheet-row dictionary:
`None` (also the result of `dict.get` on a missing key), an `int`, or a
`str`. -/
inductive PyVal where
  | vNone : PyVal
  | vInt (i : Int) : PyVal
  | vStr (s : String) : PyVal
deriving DecidableEq

/-- Python truthiness of a `PyVal` (`if record.get(...):`). -/
def PyVal.truthy : PyVal → Bool
  | .vNone => false
  | .vInt i => i != 0
  | .vStr s => s != ""

/-- Python `is not None` test. -/
def PyVal.isNotNone : PyVal → Bool
  | .vNone => false
  | _ => true

/-- Python `str(...)` on a `PyVal`. -/
def pyStr : PyVal → String
  | .vNone => "None"
  | .vInt i => toString i
  | .vStr s => s

/-- Python `int(...)` on a `PyVal`; raises (models as `Except.error`) on
`None` and on non-numeric strings. -/
def pyToInt : PyVal → Except String Int
  | .vInt i => .ok i
  | .vStr s =>
    match s.toInt? with
    | some i => .ok i
    | none => .error "invalid literal for int()"
  | .vNone => .error "int() argument is None"

/-! ## UTF-8 encoding and decoding

`upload_files.py` truncates the abstract with
`abstract.encode("utf-8")[:256]` followed by
`.decode("utf-8", errors="ignore")` and `.rstrip()`.  We model UTF-8
encoding of a list of code points and a decoder that silently drops
ill-formed byte sequences (Python's `errors="ignore"`): the decoder
accepts exactly the well-formed sequences (no overlong forms, no
surrogates, nothing above U+10FFFF) and skips offending bytes. -/

/-- Number of bytes in the UTF-8 encoding of a code point. -/
def encLen (n : Nat) : Nat :=
  if n < 128 then 1
  else if n < 2048 then 2
  else if n < 65536 then 3
  else 4

/-- UTF-8 encoding of one code point (as a list of byte values). -/
def utf8EncodeChar (n : Nat) : List Nat :=
  if n < 128 then [n]
  else if n < 2048 then [192 + n / 64, 128 + n % 64]
  else if n < 65536 then [224 + n / 4096, 128 + (n / 64) % 64, 128 + n % 64]
  else [240 + n / 262144, 128 + (n / 4096) % 64, 128 + (n / 64) % 64, 128 + n % 64]

/-- UTF-8 encoding of a list of code points. -/
def utf8Encode : List Nat → List Nat
  | [] => []
  | c :: cs => utf8EncodeChar c ++ utf8Encode cs

/-- Total UTF-8 byte length of a list of code points. -/
def utf8LenList : List Nat → Nat
  | [] => 0
  | c :: cs => encLen c + utf8LenList cs

/-- Is `b` a UTF-8 continuation byte (`10xxxxxx`)? -/
def isCont (b : Nat) : Bool := 128 ≤ b && b < 192

/-- Valid second byte of a three-byte sequence headed by `b`
(excludes overlong forms for `0xE0` and surrogates for `0xED`). -/
def cont3ok (b b1 : Nat) : Bool :=
  if b = 224 then 160 ≤ b1 && b1 < 192
  else if b = 237 then 128 ≤ b1 && b1 < 160
  else isCont b1

/-- Valid second byte of a four-byte sequence headed by `b`
(excludes overlong forms for `0xF0` and values above U+10FFFF for `0xF4`). -/
def cont4ok (b b1 : Nat) : Bool :=
  if b = 240 then 144 ≤ b1 && b1 < 192
  else if b = 244 then 128 ≤ b1 && b1 < 144
  else isCont b1

/-- Code point of a two-byte UTF-8 sequence. -/
def cp2 (b b1 : Nat) : Nat := (b - 192) * 64 + (b1 - 128)

/-- Code point of a three-byte UTF-8 sequence. -/
def cp3 (b b1 b2 : Nat) : Nat := (b - 224) * 4096 + (b1 - 128) * 64 + (b2 - 128)

/-- Code point of a four-byte UTF-8 sequence. -/
def cp4 (b b1 b2 b3 : Nat) : Nat :=
  (b - 240) * 262144 + (b1 - 128) * 4096 + (b2 - 128) * 64 + (b3 - 128)

/-- UTF-8 decoder with `errors="ignore"`: well-formed sequences are
decoded, ill-formed bytes are skipped.  The `fuel` argument (always
instantiated with the length of the byte list) makes the recursion
structural; every step consumes at least one byte, so the fuel never
runs out on the intended calls. -/
def utf8DecodeIgnoreAux : Nat → List Nat → List Nat
  | 0, _ => []
  | _ + 1, [] => []
  | fuel + 1, b :: rest =>
    if b < 128 then b :: utf8DecodeIgnoreAux fuel rest
    else if b < 194 then utf8DecodeIgnoreAux fuel rest
    else if b < 224 then
      match rest with
      | b1 :: rest1 =>
        if isCont b1 then cp2 b b1 :: utf8DecodeIgnoreAux fuel rest1
        else utf8DecodeIgnoreAux fuel rest
      | [] => []
    else if b < 240 then
      match rest with
      | b1 :: b2 :: rest2 =>
        if cont3ok b b1 && isCont b2 then cp3 b b1 b2 :: utf8DecodeIgnoreAux fuel rest2
        else utf8DecodeIgnoreAux fuel rest
      | [b1] => utf8DecodeIgnoreAux fuel [b1]
      | [] => []
    else if b < 245 then
      match rest with
      | b1 :: b2 :: b3 :: rest3 =>
        if cont4ok b b1 && isCont b2 && isCont b3 then
          cp4 b b1 b2 b3 :: utf8DecodeIgnoreAux fuel rest3
        else utf8DecodeIgnoreAux fuel rest
      | [b1, b2] => utf8DecodeIgnoreAux fuel [b1, b2]
      | [b1] => utf8DecodeIgnoreAux fuel [b1]
      | [] => []
    else utf8DecodeIgnoreAux fuel rest

/-- Python `bytes.decode("utf-8", errors="ignore")` on a byte list. -/
def utf8DecodeIgnore (bs : List Nat) : List Nat :=
  utf8DecodeIgnoreAux bs.length bs

/-- The code points that Python's `str.rstrip()` (no argument) strips:
the characters for which `str.isspace()` holds. -/
def pyIsSpace (b : Nat) : Bool :=
  [9, 10, 11, 12, 13, 28, 29, 30, 31, 32, 133, 160, 5760,
   8192, 8193, 8194, 8195, 8196, 8197, 8198, 8199, 8200, 8201, 8202,
   8232, 8233, 8239, 8287, 12288].contains b

/-- Python `str.rstrip()` over a list of code points. -/
def pyRstripCps (l : List Nat) : List Nat :=
  (l.reverse.dropWhile pyIsSpace).reverse

/-- Code points of a Lean `String`. -/
def strCps (s : String) : List Nat := s.data.map Char.toNat

/-- String built from a list of (valid) code points. -/
def cpsStr (l : List Nat) : String := String.mk (l.map Char.ofNat)

/-- `upload_files.py` abstract post-processing:
`str(x).encode("utf-8")[:256].decode("utf-8", errors="ignore").rstrip()`. -/
def processAbstract (s : String) : String :=
  cpsStr (pyRstripCps (utf8DecodeIgnore ((utf8Encode (strCps s)).take 256)))

/-- Length in bytes of the UTF-8 encoding of a string. -/
def utf8ByteLen (s : String) : Nat := (utf8Encode (strCps s)).length

/-- `true` iff the string does not end in a Python whitespace character. -/
def noTrailingSpace (s : String) : Bool :=
  match s.data.getLast? with
  | none => true
  | some c => !pyIsSpace c.toNat

/-! ## `build_custom_metadata` (upload_files.py) -/

/-- One `{"key": ..., "numeric_value"/"string_value": ...}` entry of the
custom metadata attached to an uploaded file. -/
inductive MetaEntry where
  | numeric (key : String) (value : Int) : MetaEntry
  | stringVal (key : String) (value : String) : MetaEntry
deriving DecidableEq

/-- One spreadsheet row for a file: the five columns used by
`build_custom_metadata` (`dict.get` on a missing column gives `vNone`). -/
structure Record where
  year : PyVal
  goNumber : PyVal
  department : PyVal
  abstract : PyVal
  date : PyVal
deriving DecidableEq

/-- An optional metadata entry: emitted only when its guard is truthy. -/
def optEntry (b : Bool) (e : MetaEntry) : List MetaEntry :=
  if b then [e] else []

/-- The year entries: `int(record["Year"])` is attempted only when the
field `is not None`; the conversion itself can raise. -/
def yearEntries (rec : Record) : Except String (List MetaEntry) :=
  if rec.year.isNotNone then
    (pyToInt rec.year).map (fun y => [MetaEntry.numeric "year" y])
  else .ok []

/-- `build_custom_metadata` from `upload_files.py`: conditional entries
in the fixed order year, go_number, department, abstract, date (a
raised `int()` conversion aborts the function). -/
def build_custom_metadata (rec : Record) : Except String (List MetaEntry) :=
  match yearEntries rec with
  | .error e => .error e
  | .ok ys => .ok (ys
    ++ optEntry rec.goNumber.truthy (.stringVal "go_number" (pyStr rec.goNumber))
    ++ optEntry rec.department.truthy (.stringVal "department" (pyStr rec.department))
    ++ optEntry rec.abstract.truthy (.stringVal "abstract" (processAbstract (pyStr rec.abstract)))
    ++ optEntry rec.date.truthy (.stringVal "date" (pyStr rec.date)))

/-! ## PDF enumeration (upload_files.py `main`) -/

/-- Python `str.endswith`, on the underlying character lists. -/
def strEndsWith (s suffix : String) : Bool :=
  suffix.data.isSuffixOf s.data

/-- Python `str.lower()` (ASCII case mapping, which is all the suffix
test can depend on for the `.pdf`/`.PDF` variants). -/
def pyLower (s : String) : String := String.mk (s.data.map Char.toLower)

/-- `sorted(f for f in os.listdir(TNEGA_DIR) if f.lower().endswith(".pdf"))`:
the ingestion tool's candidate list. -/
def listPdfFiles (entries : List String) : List String :=
  List.insertionSort (· ≤ ·) (entries.filter (fun f => strEndsWith (pyLower f) ".pdf"))

/-! ## Upload polling (upload_files.py `main`) -/

/-- The observable state of a remote upload operation. -/
structure Operation where
  done : Bool
  error : Option String
deriving DecidableEq

/-- One poll of `client.operations.get`: either a fresh operation state
or a raised exception. -/
inductive PollStep where
  | ok (op : Operation) : PollStep
  | err (e : String) : PollStep
deriving DecidableEq

/-- Result of the per-operation wait loop: the final operation value,
whether the loop was abandoned via `break`, and the final value of the
`retries` counter. -/
structure PollLoopResult where
  op : Operation
  abandoned : Bool
  retries : Nat
deriving DecidableEq

/-- The wait loop of `main`:
`retries = 0; while not operation.done: try: operation = get(operation)
except: retries += 1; if retries > 5: break`.
The poll outcomes are supplied as a finite oracle trace; the loop
result when the trace is exhausted corresponds to a still-pending wait. -/
def pollLoopAux (op : Operation) (retries : Nat) (polls : List PollStep) : PollLoopResult :=
  if op.done then ⟨op, false, retries⟩
  else
    match polls with
    | [] => ⟨op, false, retries⟩
    | .ok op' :: rest => pollLoopAux op' retries rest
    | .err _ :: rest =>
      if retries + 1 > 5 then ⟨op, true, retries + 1⟩
      else pollLoopAux op (retries + 1) rest

/-- After the wait loop, `main` counts the operation as failed exactly
when `operation.error` is truthy. -/
def countedAsFailed (r : PollLoopResult) : Bool := r.op.error.isSome

/-- The `(completed, failed)` totals printed in the final summary, over
a list of submitted operations with their poll traces. -/
def runPollingSummary (ops : List (Operation × List PollStep)) : Nat × Nat :=
  ops.foldl
    (fun acc p =>
      let r := pollLoopAux p.1 0 p.2
      if countedAsFailed r then (acc.1, acc.2 + 1) else (acc.1 + 1, acc.2))
    (0, 0)

/-! ## Citation formatting (app.py) -/

/-- `chunk.retrieved_context`: carries an optional title. -/
structure RetrievedContext where
  title : Option String
deriving DecidableEq

/-- One grounding chunk of a response candidate. -/
structure Chunk where
  retrieved_context : Option RetrievedContext
deriving DecidableEq

/-- `candidate.grounding_metadata`: optional list of grounding chunks. -/
structure GroundingMetadata where
  grounding_chunks : Option (List Chunk)
deriving DecidableEq

/-- One response candidate. -/
structure Candidate where
  grounding_metadata : Option GroundingMetadata
deriving DecidableEq

/-- A generate-content response, as far as `format_citations` looks at
it.  An empty `candidates` list models the absent-candidates case
(`IndexError`, caught by the formatter). -/
structure Response where
  candidates : List Candidate
deriving DecidableEq

/-- `chunk.retrieved_context.title or "Unknown source"`. -/
def effTitle (rc : RetrievedContext) : String :=
  match rc.title with
  | some t => if t = "" then "Unknown source" else t
  | none => "Unknown source"

/-- One iteration of the citation-collection loop. -/
def citStep (acc : List String) (ch : Chunk) : List String :=
  match ch.retrieved_context with
  | some rc =>
    let t := effTitle rc
    if t ∈ acc then acc else acc ++ [t]
  | none => acc

/-- The `citations` list accumulated by `format_citations`. -/
def collectCitations (chunks : List Chunk) : List String :=
  chunks.foldl citStep []

/-- The effective titles of the chunks that carry a retrieved context,
in order. -/
def chunkTitles (chunks : List Chunk) : List String :=
  chunks.filterMap (fun ch => ch.retrieved_context.map effTitle)

/-- First-seen deduplication: keeps the first occurrence of every
element, in order.  Reference definition used to characterise
`collectCitations`. -/
def fsDedup : List String → List String
  | [] => []
  | x :: xs => x :: fsDedup (xs.filter (fun y => y ≠ x))
termination_by l => l.length
decreasing_by
  simp only [List.length_cons]
  exact Nat.lt_succ_of_le (List.length_filter_le _ _)

/-- `format_citations` from `app.py`. -/
def format_citations (resp : Response) : String :=
  let citations :=
    match resp.candidates with
    | [] => []
    | c :: _ =>
      match c.grounding_metadata with
      | none => []
      | some g =>
        match g.grounding_chunks with
        | none => []
        | some chunks => if chunks = [] then [] else collectCitations chunks
  if citations = [] then ""
  else
    "\n\n---\n**Sources:**\n"
      ++ String.intercalate "\n" (citations.map (fun c => "- " ++ c))

/-! ## Chat session handling (app.py) -/

/-- One stored conversation turn (`{"role": ..., "text": ...}`). -/
structure Turn where
  role : String
  text : String
deriving DecidableEq

/-- A `types.Content` with a single text part. -/
structure Content where
  role : String
  text : String
deriving DecidableEq

/-- Per-session state stored by `on_chat_start` (the client handle is
implied by a present state). -/
structure SessionState where
  storeName : String
  history : List Turn
deriving DecidableEq

/-- The system prompt of `app.py`. -/
def SYSTEM_PROMPT : String :=
  "You are a Tamil Nadu Government Orders (GO) search assistant powered by TNe-GA. "
  ++ "You help users find and understand Government Orders issued by the "
  ++ "Information Technology & Digital Services Department of Tamil Nadu.\n\n"
  ++ "When answering:\n"
  ++ "- Always cite the specific GO number, date, and department.\n"
  ++ "- Provide a clear summary of the relevant GO content.\n"
  ++ "- If multiple GOs are relevant, mention all of them.\n"
  ++ "- If the query doesn't match any GO, say so clearly.\n"
  ++ "- Be concise but thorough."

/-- The welcome message sent on successful session start. -/
def welcomeMsg : String :=
  "Welcome to **TNe-GA GO Search**!\n\n"
  ++ "I can help you find information from Tamil Nadu Government Orders "
  ++ "issued by the IT & Digital Services Department.\n\n"
  ++ "Try asking:\n"
  ++ "- \"What is the cyber security policy?\"\n"
  ++ "- \"e-Office budget details\"\n"
  ++ "- \"Data centre policy 2021\"\n"
  ++ "- \"List all GOs related to ELCOT\""

/-- Message sent when the API key is absent. -/
def apiKeyMissingMsg : String := "GEMINI_API_KEY environment variable is not set."

/-- The `FileNotFoundError` text raised by `load_store_config` and sent
verbatim by `on_chat_start`. -/
def configMissingMsg : String :=
  "store_config.json not found. Run upload_files.py first to create the store."

/-- Guard message of `on_message` for an uninitialized session. -/
def sessionMissingMsg : String := "Session not initialized. Please refresh the page."

/-- `on_chat_start`: `apiKey` is the environment lookup
(`none`/empty string are falsy), `config` is the `store_name` read from
`store_config.json` when that file exists.  Returns the message sent to
the UI and the session state stored (or `none` when none is stored). -/
def on_chat_start (apiKey : Option String) (config : Option String) :
    String × Option SessionState :=
  match apiKey with
  | none => (apiKeyMissingMsg, none)
  | some k =>
    if k = "" then (apiKeyMissingMsg, none)
    else
      match config with
      | none => (configMissingMsg, none)
      | some storeName => (welcomeMsg, some ⟨storeName, []⟩)

/-- The `contents` list assembled for the generate-content call: the
system-prompt turn, a fixed model acknowledgement, the stored history,
then the new user message. -/
def buildContents (history : List Turn) (userMsg : String) : List Content :=
  ⟨"user", SYSTEM_PROMPT⟩
    :: ⟨"model", "Understood. I'm ready to help with Tamil Nadu Government Orders."⟩
    :: history.map (fun t => ⟨t.role, t.text⟩)
    ++ [⟨"user", userMsg⟩]

/-- Outcome of the generate-content call: success carries
`response.text` (optional) and the response object used for citations;
failure carries the exception text. -/
inductive QueryResult where
  | success (text : Option String) (resp : Response) : QueryResult
  | failure (err : String) : QueryResult

/-- The `full_response` composed by `on_message`: answer text (or the
fixed fallback when `response.text` is falsy) plus formatted citations,
or the error message. -/
def composeResponse (qr : QueryResult) : String :=
  match qr with
  | .success txt resp =>
    (match txt with
      | some t => if t = "" then "I couldn't find a relevant answer." else t
      | none => "I couldn't find a relevant answer.")
      ++ format_citations resp
  | .failure e => "An error occurred: " ++ e

/-- The history update of `on_message`: append the user turn and the
model turn, then `history[-20:]` when more than 20 turns are stored. -/
def handleHistory (h : List Turn) (userMsg fullResponse : String) : List Turn :=
  let h2 := h ++ [⟨"user", userMsg⟩, ⟨"model", fullResponse⟩]
  if h2.length > 20 then h2.drop (h2.length - 20) else h2

/-- `on_message`: guard on missing session state, query the service on
the assembled contents, compose the reply, update the history.  Returns
the message sent and the new session state. -/
def on_message (st : Option SessionState) (userMsg : String)
    (query : List Content → QueryResult) : String × Option SessionState :=
  match st with
  | none => (sessionMissingMsg, none)
  | some s =>
    if s.storeName = "" then (sessionMissingMsg, some s)
    else
      let full := composeResponse (query (buildContents s.history userMsg))
      (full, some ⟨s.storeName, handleHistory s.history userMsg full⟩)

/-- Stored-history length of an optional session state. -/
def histLen : Option SessionState → Nat
  | none => 0
  | some s => s.history.length

/-- Fold `on_message` over a list of (user message, service oracle)
pairs, tracking only the stored session state. -/
def runSession (s : SessionState)
    (msgs : List (String × (List Content → QueryResult))) : Option SessionState :=
  msgs.foldl (fun st p => (on_message st p.1 p.2).2) (some s)

/-! ## Helper lemmas -/

/-- A transcript of 9 prior user/model exchanges (18 turns). -/
def h18 : List Turn :=
  (List.replicate 9 ([⟨"user", "q"⟩, ⟨"model", "a"⟩] : List Turn)).flatten

/-- A submitted operation that is still pending and carries no error. -/
def opPending : Operation := ⟨false, none⟩

/-- Six consecutive poll exceptions. -/
def sixPollErrors : List PollStep := List.replicate 6 (.err "network error")

/-- Eleven polls in which no two failures are adjacent: six isolated
failures separated by successful polls that return a pending operation. -/
def altPollTrace : List PollStep :=
  [.err "e", .ok opPending, .err "e", .ok opPending, .err "e", .ok opPending,
   .err "e", .ok opPending, .err "e", .ok opPending, .err "e"]

/-- One iteration of the citation loop, expressed on titles (proof
helper for characterising `collectCitations`). -/
def tStep (acc : List String) (t : String) : List String :=
  if t ∈ acc then acc else acc ++ [t]

lemma handleHistory_length_le (h : List Turn) (u m : String)
    (hle : h.length ≤ 20) : (handleHistory h u m).length ≤ 20 := by
  simp only [handleHistory]
  split
  · simp only [List.length_drop]
    omega
  · simp only [List.length_append, List.length_cons, List.length_nil] at *
    omega

lemma histLen_on_message_le (st : Option SessionState) (u : String)
    (q : List Content → QueryResult) (hle : histLen st ≤ 20) :
    histLen (on_message st u q).2 ≤ 20 := by
  match st with
  | none => simp [on_message, histLen]
  | some s =>
    by_cases hs : s.storeName = ""
    · simpa [on_message, hs, histLen] using hle
    · simp only [on_message, hs, if_neg, ite_false, histLen]
      exact handleHistory_length_le _ _ _ (by simpa [histLen] using hle)

lemma runSession_aux_le (msgs : List (String × (List Content → QueryResult))) :
    ∀ st : Option SessionState, histLen st ≤ 20 →
      histLen (msgs.foldl (fun st p => (on_message st p.1 p.2).2) st) ≤ 20 := by
  induction msgs with
  | nil => intro st h; simpa using h
  | cons p rest ih =>
    intro st h
    simp only [List.foldl_cons]
    exact ih _ (histLen_on_message_le st p.1 p.2 h)

lemma pollLoopAux_retries_bound (polls : List PollStep) :
    ∀ (op : Operation) (k : Nat), k ≤ 5 →
      (pollLoopAux op k polls).retries ≤ 6 ∧
      ((pollLoopAux op k polls).abandoned = true → (pollLoopAux op k polls).retries = 6) := by
  induction polls with
  | nil =>
    intro op k hk
    unfold pollLoopAux
    split <;> simp <;> omega
  | cons p rest ih =>
    intro op k hk
    by_cases hd : op.done
    · unfold pollLoopAux; simp [hd]; omega
    · cases p with
      | ok op' =>
        unfold pollLoopAux
        simp only [hd, ite_false, Bool.false_eq_true]
        exact ih op' k hk
      | err e =>
        by_cases hk5 : k + 1 > 5
        · unfold pollLoopAux
          simp [hd, hk5]
          omega
        · unfold pollLoopAux
          simp only [hd, hk5, ite_false, Bool.false_eq_true]
          exact ih op (k + 1) (by omega)

lemma mem_optEntry {x e : MetaEntry} {b : Bool} (h : x ∈ optEntry b e) : x = e := by
  unfold optEntry at h
  split at h <;> simp_all

lemma yearEntries_shape (rec : Record) (ys : List MetaEntry)
    (h : yearEntries rec = .ok ys) :
    ∀ e ∈ ys, ∃ y, e = MetaEntry.numeric "year" y := by
  unfold yearEntries at h
  split at h
  · cases hp : pyToInt rec.year with
    | error e => rw [hp] at h; simp [Except.map] at h
    | ok y =>
      rw [hp] at h
      simp only [Except.map, Except.ok.injEq] at h
      subst h
      intro e he
      simp only [List.mem_singleton] at he
      exact ⟨y, he⟩
  · simp only [Except.ok.injEq] at h
    subst h
    intro e he
    simp at he

/-! ## Claim theorems -/

/-- C1 (counterexample): handling one new exchange on an 18-turn stored
transcript leaves 20 turns, not the claimed 19 (each handled message
appends both the user turn and the model turn). -/
theorem nineteen_turn_claim_cex :
    (handleHistory h18 "q10" "a10").length = 20 ∧
    ¬ (handleHistory h18 "q10" "a10").length = 19 := by decide

/-- C1 (amended): for a stored transcript of 18 turns (9 prior
exchanges), handling one new message appends the new user turn and the
model turn without truncation, leaving exactly 20 turns. -/
theorem history_after_ninth_exchange (h : List Turn) (u m : String)
    (hlen : h.length = 18) :
    handleHistory h u m = h ++ [⟨"user", u⟩, ⟨"model", m⟩] ∧
    (handleHistory h u m).length = 20 := by
  unfold handleHistory
  simp [hlen]

theorem history_after_ninth_exchange_witness :
    handleHistory h18 "q" "a" = h18 ++ [⟨"user", "q"⟩, ⟨"model", "a"⟩] ∧
    (handleHistory h18 "q" "a").length = 20 :=
  history_after_ninth_exchange h18 "q" "a" (by decide)

/-- C2: a pending operation whose polls raise six consecutive
exceptions is abandoned by the wait loop, yet — because its stale
`error` field is unset — the summary counts it as a success
(`(completed, failed) = (1, 0)`), contradicting the failure log. -/
theorem abandoned_poll_counted_as_success :
    (pollLoopAux opPending 0 sixPollErrors).abandoned = true ∧
    countedAsFailed (pollLoopAux opPending 0 sixPollErrors) = false ∧
    runPollingSummary [(opPending, sixPollErrors)] = (1, 0) := by decide

/-- C3 (counterexample): the loop abandons an operation after six
isolated poll failures none of which are consecutive — successful polls
do not reset the counter — and it does not abandon after five
consecutive failures. -/
theorem poll_retry_not_consecutive_cex :
    (pollLoopAux opPending 0 altPollTrace).abandoned = true ∧
    (pollLoopAux opPending 0 altPollTrace).retries = 6 ∧
    (pollLoopAux opPending 0
        (List.replicate 5 (.err "e") ++ [.ok ⟨true, none⟩])).abandoned = false := by
  decide

/-- C3 (amended): the per-operation failure counter is cumulative (a
successful poll never resets it), it never exceeds 6, and the loop
abandons the operation exactly when the counter reaches 6 — that is,
after 6 failed polls in total, consecutive or not. -/
theorem poll_retry_budget (op : Operation) (polls : List PollStep) :
    (pollLoopAux op 0 polls).retries ≤ 6 ∧
    ((pollLoopAux op 0 polls).abandoned = true →
      (pollLoopAux op 0 polls).retries = 6) :=
  pollLoopAux_retries_bound polls op 0 (by omega)

theorem poll_retry_budget_witness :
    (pollLoopAux opPending 0 sixPollErrors).retries = 6 :=
  (poll_retry_budget opPending sixPollErrors).2 (by decide)

/-- C4: starting from an empty transcript, after every sequence of
handled messages the stored transcript has at most 20 turns; and
whenever appending the new exchange exceeds the cap, the stored
transcript is exactly a 20-turn suffix of the appended transcript (the
20 most-recent turns, oldest dropped first). -/
theorem history_cap :
    (∀ (s : SessionState) (msgs : List (String × (List Content → QueryResult))),
        s.history = [] → histLen (runSession s msgs) ≤ 20) ∧
    (∀ (h : List Turn) (u m : String), 20 < h.length + 2 →
        (handleHistory h u m).length = 20 ∧
        handleHistory h u m <:+ h ++ [⟨"user", u⟩, ⟨"model", m⟩]) := by
  constructor
  · intro s msgs hs
    exact runSession_aux_le msgs (some s) (by simp [histLen, hs])
  · intro h u m hlen
    unfold handleHistory
    have hcond : (h ++ [⟨"user", u⟩, ⟨"model", m⟩] : List Turn).length > 20 := by
      simp only [List.length_append, List.length_cons, List.length_nil]
      omega
    rw [if_pos hcond]
    refine ⟨?_, List.drop_suffix _ _⟩
    simp only [List.length_drop]
    omega

theorem history_cap_witness :
    histLen (runSession ⟨"store", []⟩ [("hi", fun _ => .failure "boom")]) ≤ 20 ∧
    (handleHistory (h18 ++ [⟨"user", "q"⟩, ⟨"model", "a"⟩]) "u" "m").length = 20 :=
  ⟨history_cap.1 ⟨"store", []⟩ [("hi", fun _ => .failure "boom")] rfl,
   (history_cap.2 (h18 ++ [⟨"user", "q"⟩, ⟨"model", "a"⟩]) "u" "m" (by decide)).1⟩

/-- C6: whenever the response has no candidates, or the first candidate
has no grounding metadata, or the grounding metadata has no grounding
chunks (absent or empty), `format_citations` returns the empty string. -/
theorem citations_missing_structure_empty :
    (∀ (r : Response), r.candidates = [] → format_citations r = "") ∧
    (∀ (r : Response) (c : Candidate) (cs : List Candidate),
        r.candidates = c :: cs → c.grounding_metadata = none →
          format_citations r = "") ∧
    (∀ (r : Response) (c : Candidate) (cs : List Candidate) (g : GroundingMetadata),
        r.candidates = c :: cs → c.grounding_metadata = some g →
        (g.grounding_chunks = none ∨ g.grounding_chunks = some []) →
          format_citations r = "") := by
  refine ⟨?_, ?_, ?_⟩
  · intro r hr
    simp [format_citations, hr]
  · intro r c cs hr hc
    simp [format_citations, hr, hc]
  · intro r c cs g hr hc hg
    cases hg with
    | inl h => simp [format_citations, hr, hc, h]
    | inr h => simp [format_citations, hr, hc, h]

theorem citations_missing_structure_empty_witness :
    format_citations ⟨[]⟩ = "" :=
  citations_missing_structure_empty.1 ⟨[]⟩ rfl

/-- C8 (counterexample): the file `"A.PDF"` is a candidate of the
ingestion tool although its name does not end with the lowercase suffix
`".pdf"` — the code lowercases the name before the suffix test. -/
theorem pdf_candidates_cex :
    listPdfFiles ["A.PDF"] = ["A.PDF"] ∧ strEndsWith "A.PDF" ".pdf" = false := by
  decide

/-- C8 (amended): the candidate list is a permutation of exactly the
directory entries whose lowercased names end with `".pdf"`
(case-insensitive suffix match), and it is sorted by filename. -/
theorem pdf_candidates (entries : List String) :
    List.Perm (listPdfFiles entries)
      (entries.filter (fun f => strEndsWith (pyLower f) ".pdf")) ∧
    List.Sorted (· ≤ ·) (listPdfFiles entries) ∧
    ∀ f, f ∈ listPdfFiles entries ↔
      f ∈ entries ∧ strEndsWith (pyLower f) ".pdf" = true := by
  refine ⟨List.perm_insertionSort _ _, List.sorted_insertionSort _ _, fun f => ?_⟩
  unfold listPdfFiles
  rw [(List.perm_insertionSort _ _).mem_iff, List.mem_filter]

/-- C9: with the credential present but the configuration file missing,
session start sends exactly the message telling the user to run
`upload_files.py` first and stores no session state, so a subsequent
message hits the uninitialized-session guard and leaves no state. -/
theorem chat_start_missing_config (k : String) (hk : k ≠ "") :
    (on_chat_start (some k) none).1 = configMissingMsg ∧
    (on_chat_start (some k) none).2 = none ∧
    ∀ (msg : String) (query : List Content → QueryResult),
      (on_message (on_chat_start (some k) none).2 msg query).1 = sessionMissingMsg ∧
      (on_message (on_chat_start (some k) none).2 msg query).2 = none := by
  simp [on_chat_start, hk, on_message]

theorem chat_start_missing_config_witness :
    (on_chat_start (some "key") none).2 = none ∧
    (on_message (on_chat_start (some "key") none).2 "hi"
        (fun _ => .failure "boom")).1 = sessionMissingMsg :=
  ⟨(chat_start_missing_config "key" (by decide)).2.1,
   ((chat_start_missing_config "key" (by decide)).2.2 "hi" (fun _ => .failure "boom")).1⟩

/-- C10: the builder tests Year against `None` but the string fields
against truthiness: Year `= 0` still yields the numeric `year` entry
with value 0, while an empty-string GO Number, Department, Abstract or
Date yields no corresponding entry. -/
theorem metadata_year_none_vs_truthiness (rec : Record) (ms : List MetaEntry)
    (hok : build_custom_metadata rec = .ok ms) :
    (rec.year = .vInt 0 → MetaEntry.numeric "year" 0 ∈ ms) ∧
    (rec.goNumber = .vStr "" → ∀ v, MetaEntry.stringVal "go_number" v ∉ ms) ∧
    (rec.department = .vStr "" → ∀ v, MetaEntry.stringVal "department" v ∉ ms) ∧
    (rec.abstract = .vStr "" → ∀ v, MetaEntry.stringVal "abstract" v ∉ ms) ∧
    (rec.date = .vStr "" → ∀ v, MetaEntry.stringVal "date" v ∉ ms) := by
  unfold build_custom_metadata at hok
  cases hy : yearEntries rec with
  | error e => rw [hy] at hok; simp at hok
  | ok ys =>
    rw [hy] at hok
    simp only [Except.ok.injEq] at hok
    subst hok
    have hys := yearEntries_shape rec ys hy
    refine ⟨?_, ?_, ?_, ?_, ?_⟩
    · intro h0
      have : yearEntries rec = .ok [MetaEntry.numeric "year" 0] := by
        unfold yearEntries
        rw [h0]
        simp [PyVal.isNotNone, pyToInt, Except.map]
      rw [hy] at this
      simp only [Except.ok.injEq] at this
      subst this
      simp
    · intro hemp v hmem
      simp only [List.mem_append] at hmem
      rcases hmem with ((((hm | hm) | hm) | hm) | hm)
      · obtain ⟨y, he⟩ := hys _ hm; simp at he
      · rw [hemp] at hm; simp [PyVal.truthy, optEntry] at hm
      · have := mem_optEntry hm; simp at this
      · have := mem_optEntry hm; simp at this
      · have := mem_optEntry hm; simp at this
    · intro hemp v hmem
      simp only [List.mem_append] at hmem
      rcases hmem with ((((hm | hm) | hm) | hm) | hm)
      · obtain ⟨y, he⟩ := hys _ hm; simp at he
      · have := mem_optEntry hm; simp at this
      · rw [hemp] at hm; simp [PyVal.truthy, optEntry] at hm
      · have := mem_optEntry hm; simp at this
      · have := mem_optEntry hm; simp at this
    · intro hemp v hmem
      simp only [List.mem_append] at hmem
      rcases hmem with ((((hm | hm) | hm) | hm) | hm)
      · obtain ⟨y, he⟩ := hys _ hm; simp at he
      · have := mem_optEntry hm; simp at this
      · have := mem_optEntry hm; simp at this
      · rw [hemp] at hm; simp [PyVal.truthy, optEntry] at hm
      · have := mem_optEntry hm; simp at this
    · intro hemp v hmem
      simp only [List.mem_append] at hmem
      rcases hmem with ((((hm | hm) | hm) | hm) | hm)
      · obtain ⟨y, he⟩ := hys _ hm; simp at he
      · have := mem_optEntry hm; simp at this
      · have := mem_optEntry hm; simp at this
      · have := mem_optEntry hm; simp at this
      · rw [hemp] at hm; simp [PyVal.truthy, optEntry] at hm

theorem metadata_year_none_vs_truthiness_witness :
    MetaEntry.numeric "year" 0 ∈ [MetaEntry.numeric "year" 0] ∧
    (∀ v, MetaEntry.stringVal "go_number" v ∉ [MetaEntry.numeric "year" 0]) :=
  ⟨(metadata_year_none_vs_truthiness ⟨.vInt 0, .vStr "", .vStr "", .vStr "", .vStr ""⟩
      [MetaEntry.numeric "year" 0] rfl).1 rfl,
   (metadata_year_none_vs_truthiness ⟨.vInt 0, .vStr "", .vStr "", .vStr "", .vStr ""⟩
      [MetaEntry.numeric "year" 0] rfl).2.1 rfl⟩


lemma isCont_bounds {b : Nat} (h : isCont b = true) : 128 ≤ b ∧ b < 192 := by
  simpa [isCont] using h

lemma encLen_ascii {b : Nat} (hb : b < 128) :
    encLen b = 1 ∧ Nat.isValidChar b :=
  ⟨by simp [encLen, hb], Or.inl (by omega)⟩

lemma encLen_two {b b1 : Nat} (hb : ¬ b < 194) (hb' : b < 224) (h1 : isCont b1 = true) :
    encLen (cp2 b b1) = 2 ∧ Nat.isValidChar (cp2 b b1) := by
  obtain ⟨hl, hr⟩ := isCont_bounds h1
  have h2 : ¬ cp2 b b1 < 128 := by unfold cp2; omega
  have h3 : cp2 b b1 < 2048 := by unfold cp2; omega
  exact ⟨by simp [encLen, h2, h3], Or.inl (by unfold cp2; omega)⟩

lemma cont3ok_bounds {b b1 : Nat} (h : cont3ok b b1 = true) :
    (b = 224 ∧ 160 ≤ b1 ∧ b1 < 192) ∨ (b = 237 ∧ 128 ≤ b1 ∧ b1 < 160) ∨
      (b ≠ 224 ∧ b ≠ 237 ∧ 128 ≤ b1 ∧ b1 < 192) := by
  unfold cont3ok at h
  by_cases he : b = 224
  · simp [he, isCont] at h; omega
  · by_cases hd : b = 237
    · simp [he, hd, isCont] at h; omega
    · simp [he, hd, isCont] at h; omega

lemma encLen_three {b b1 b2 : Nat} (hb : ¬ b < 224) (hb' : b < 240)
    (h1 : cont3ok b b1 = true) (h2 : isCont b2 = true) :
    encLen (cp3 b b1 b2) = 3 ∧ Nat.isValidChar (cp3 b b1 b2) := by
  have hd := cont3ok_bounds h1
  obtain ⟨hf, hg⟩ := isCont_bounds h2
  have hlow : 2048 ≤ cp3 b b1 b2 := by unfold cp3; omega
  have hhigh : cp3 b b1 b2 < 65536 := by unfold cp3; omega
  have hn1 : ¬ cp3 b b1 b2 < 128 := by omega
  have hn2 : ¬ cp3 b b1 b2 < 2048 := by omega
  refine ⟨by simp [encLen, hn1, hn2, hhigh], ?_⟩
  unfold Nat.isValidChar
  unfold cp3
  omega

lemma cont4ok_bounds {b b1 : Nat} (h : cont4ok b b1 = true) :
    (b = 240 ∧ 144 ≤ b1 ∧ b1 < 192) ∨ (b = 244 ∧ 128 ≤ b1 ∧ b1 < 144) ∨
      (b ≠ 240 ∧ b ≠ 244 ∧ 128 ≤ b1 ∧ b1 < 192) := by
  unfold cont4ok at h
  by_cases he : b = 240
  · simp [he, isCont] at h; omega
  · by_cases hd : b = 244
    · simp [he, hd, isCont] at h; omega
    · simp [he, hd, isCont] at h; omega

lemma encLen_four {b b1 b2 b3 : Nat} (hb : ¬ b < 240) (hb' : b < 245)
    (h1 : cont4ok b b1 = true) (h2 : isCont b2 = true) (h3 : isCont b3 = true) :
    encLen (cp4 b b1 b2 b3) = 4 ∧ Nat.isValidChar (cp4 b b1 b2 b3) := by
  have hd := cont4ok_bounds h1
  obtain ⟨hf, hg⟩ := isCont_bounds h2
  obtain ⟨hi, hj⟩ := isCont_bounds h3
  have hlow : 65536 ≤ cp4 b b1 b2 b3 := by unfold cp4; omega
  have hhigh : cp4 b b1 b2 b3 < 1114112 := by unfold cp4; omega
  have hn1 : ¬ cp4 b b1 b2 b3 < 128 := by omega
  have hn2 : ¬ cp4 b b1 b2 b3 < 2048 := by omega
  have hn3 : ¬ cp4 b b1 b2 b3 < 65536 := by omega
  exact ⟨by simp [encLen, hn1, hn2, hn3], Or.inr ⟨by omega, hhigh⟩⟩

set_option maxRecDepth 4000 in
lemma utf8DecodeIgnoreAux_sound (fuel : Nat) (bs : List Nat) :
    utf8LenList (utf8DecodeIgnoreAux fuel bs) ≤ bs.length ∧
    ∀ cp ∈ utf8DecodeIgnoreAux fuel bs, Nat.isValidChar cp := by
  induction fuel, bs using utf8DecodeIgnoreAux.induct with
  | case1 bs => simp [utf8DecodeIgnoreAux, utf8LenList]
  | case2 n => simp [utf8DecodeIgnoreAux, utf8LenList]
  | case3 fuel b rest hb ih =>
    simp only [utf8DecodeIgnoreAux, if_pos hb]
    obtain ⟨he, hv⟩ := encLen_ascii hb
    refine ⟨?_, ?_⟩
    · have := ih.1
      simp only [utf8LenList, List.length_cons, he]
      omega
    · intro cp hcp
      rcases List.mem_cons.1 hcp with h | h
      · exact h ▸ hv
      · exact ih.2 cp h
  | case4 fuel b rest h1 h2 ih =>
    simp only [utf8DecodeIgnoreAux, if_neg h1, if_pos h2]
    exact ⟨le_trans ih.1 (by simp only [List.length_cons]; omega), ih.2⟩
  | case5 fuel b h1 h2 h3 b1 rest1 hc ih =>
    simp only [utf8DecodeIgnoreAux, if_neg h1, if_neg h2, if_pos h3, if_pos hc]
    obtain ⟨he, hv⟩ := encLen_two h2 h3 hc
    refine ⟨?_, ?_⟩
    · have := ih.1
      simp only [utf8LenList, List.length_cons, he]
      omega
    · intro cp hcp
      rcases List.mem_cons.1 hcp with h | h
      · exact h ▸ hv
      · exact ih.2 cp h
  | case6 fuel b h1 h2 h3 b1 rest1 hc ih =>
    simp only [utf8DecodeIgnoreAux, if_neg h1, if_neg h2, if_pos h3, if_neg hc]
    exact ⟨le_trans ih.1 (by simp only [List.length_cons]; omega), ih.2⟩
  | case7 fuel b h1 h2 h3 =>
    simp only [utf8DecodeIgnoreAux, if_neg h1, if_neg h2, if_pos h3]
    simp [utf8LenList]
  | case8 fuel b h1 h2 h3 h4 b1 b2 rest2 hc ih =>
    simp only [utf8DecodeIgnoreAux, if_neg h1, if_neg h2, if_neg h3, if_pos h4, if_pos hc]
    rw [Bool.and_eq_true] at hc
    obtain ⟨he, hv⟩ := encLen_three h3 h4 hc.1 hc.2
    refine ⟨?_, ?_⟩
    · have := ih.1
      simp only [utf8LenList, List.length_cons, he]
      omega
    · intro cp hcp
      rcases List.mem_cons.1 hcp with h | h
      · exact h ▸ hv
      · exact ih.2 cp h
  | case9 fuel b h1 h2 h3 h4 b1 b2 rest2 hc ih =>
    simp only [utf8DecodeIgnoreAux, if_neg h1, if_neg h2, if_neg h3, if_pos h4, if_neg hc]
    exact ⟨le_trans ih.1 (by simp only [List.length_cons]; omega), ih.2⟩
  | case10 fuel b h1 h2 h3 h4 b1 ih =>
    simp only [utf8DecodeIgnoreAux, if_neg h1, if_neg h2, if_neg h3, if_pos h4]
    exact ⟨le_trans ih.1 (by simp only [List.length_cons, List.length_nil]; omega), ih.2⟩
  | case11 fuel b h1 h2 h3 h4 =>
    simp only [utf8DecodeIgnoreAux, if_neg h1, if_neg h2, if_neg h3, if_pos h4]
    simp [utf8LenList]
  | case12 fuel b h1 h2 h3 h4 h5 b1 b2 b3 rest3 hc ih =>
    simp only [utf8DecodeIgnoreAux, if_neg h1, if_neg h2, if_neg h3, if_neg h4, if_pos h5, if_pos hc]
    rw [Bool.and_eq_true, Bool.and_eq_true] at hc
    obtain ⟨he, hv⟩ := encLen_four h4 h5 hc.1.1 hc.1.2 hc.2
    refine ⟨?_, ?_⟩
    · have := ih.1
      simp only [utf8LenList, List.length_cons, he]
      omega
    · intro cp hcp
      rcases List.mem_cons.1 hcp with h | h
      · exact h ▸ hv
      · exact ih.2 cp h
  | case13 fuel b h1 h2 h3 h4 h5 b1 b2 b3 rest3 hc ih =>
    simp only [utf8DecodeIgnoreAux, if_neg h1, if_neg h2, if_neg h3, if_neg h4, if_pos h5, if_neg hc]
    exact ⟨le_trans ih.1 (by simp only [List.length_cons]; omega), ih.2⟩
  | case14 fuel b h1 h2 h3 h4 h5 b1 b2 ih =>
    simp only [utf8DecodeIgnoreAux, if_neg h1, if_neg h2, if_neg h3, if_neg h4, if_pos h5]
    exact ⟨le_trans ih.1 (by simp only [List.length_cons, List.length_nil]; omega), ih.2⟩
  | case15 fuel b h1 h2 h3 h4 h5 b1 ih =>
    simp only [utf8DecodeIgnoreAux, if_neg h1, if_neg h2, if_neg h3, if_neg h4, if_pos h5]
    exact ⟨le_trans ih.1 (by simp only [List.length_cons, List.length_nil]; omega), ih.2⟩
  | case16 fuel b h1 h2 h3 h4 h5 =>
    simp only [utf8DecodeIgnoreAux, if_neg h1, if_neg h2, if_neg h3, if_neg h4, if_pos h5]
    simp [utf8LenList]
  | case17 fuel b rest h1 h2 h3 h4 h5 ih =>
    simp only [utf8DecodeIgnoreAux, if_neg h1, if_neg h2, if_neg h3, if_neg h4, if_neg h5]
    exact ⟨le_trans ih.1 (by simp only [List.length_cons]; omega), ih.2⟩

lemma length_utf8EncodeChar (n : Nat) : (utf8EncodeChar n).length = encLen n := by
  unfold utf8EncodeChar encLen
  split_ifs <;> rfl

lemma length_utf8Encode (l : List Nat) : (utf8Encode l).length = utf8LenList l := by
  induction l with
  | nil => rfl
  | cons c cs ih =>
    simp [utf8Encode, utf8LenList, List.length_append, length_utf8EncodeChar, ih]

lemma utf8LenList_le_of_sublist {l1 l2 : List Nat} (h : l1.Sublist l2) :
    utf8LenList l1 ≤ utf8LenList l2 := by
  induction h with
  | slnil => exact le_refl _
  | cons a h ih => simp only [utf8LenList]; omega
  | cons₂ a h ih => simp only [utf8LenList]; omega

lemma toNat_ofNat_valid {n : Nat} (h : n.isValidChar) : (Char.ofNat n).toNat = n := by
  unfold Char.ofNat
  rw [dif_pos h]
  rfl

lemma head?_dropWhile_not (p : Nat → Bool) (l : List Nat) (x : Nat)
    (h : (l.dropWhile p).head? = some x) : p x = false := by
  induction l with
  | nil => simp [List.dropWhile] at h
  | cons a l ih =>
    by_cases hp : p a
    · rw [List.dropWhile_cons_of_pos hp] at h
      exact ih h
    · rw [List.dropWhile_cons_of_neg hp] at h
      simp only [List.head?_cons, Option.some.injEq] at h
      rw [← h]
      exact Bool.not_eq_true _ ▸ eq_false_of_ne_true hp
  
lemma pyRstripCps_sublist (l : List Nat) : (pyRstripCps l).Sublist l := by
  unfold pyRstripCps
  have h1 := (List.dropWhile_sublist (l := l.reverse) pyIsSpace).reverse
  simpa using h1

lemma getLast?_pyRstripCps (l : List Nat) (x : Nat)
    (h : (pyRstripCps l).getLast? = some x) : pyIsSpace x = false := by
  unfold pyRstripCps at h
  rw [List.getLast?_reverse] at h
  exact head?_dropWhile_not pyIsSpace l.reverse x h

lemma utf8ByteLen_cpsStr (m : List Nat) (hv : ∀ cp ∈ m, Nat.isValidChar cp) :
    utf8ByteLen (cpsStr m) = utf8LenList m := by
  unfold utf8ByteLen cpsStr strCps
  rw [length_utf8Encode]
  simp only [String.data]
  rw [List.map_map]
  induction m with
  | nil => rfl
  | cons c cs ih =>
    simp only [List.map_cons, utf8LenList, Function.comp_apply]
    rw [toNat_ofNat_valid (hv c (List.mem_cons_self c cs)),
        ih (fun cp hc => hv cp (List.mem_cons_of_mem c hc))]

lemma processAbstract_spec (s : String) :
    utf8ByteLen (processAbstract s) ≤ 256 ∧
    noTrailingSpace (processAbstract s) = true := by
  unfold processAbstract
  set bs := (utf8Encode (strCps s)).take 256 with hbs
  set l := utf8DecodeIgnore bs with hl
  set m := pyRstripCps l with hm
  have hsound := utf8DecodeIgnoreAux_sound bs.length bs
  have hlen : utf8LenList l ≤ 256 := by
    refine le_trans hsound.1 ?_
    rw [hbs]
    exact List.length_take_le 256 _
  have hval : ∀ cp ∈ l, Nat.isValidChar cp := hsound.2
  have hmsub : m.Sublist l := pyRstripCps_sublist l
  have hmval : ∀ cp ∈ m, Nat.isValidChar cp := fun cp hc => hval cp (hmsub.subset hc)
  constructor
  · rw [utf8ByteLen_cpsStr m hmval]
    exact le_trans (utf8LenList_le_of_sublist hmsub) hlen
  · unfold noTrailingSpace cpsStr
    simp only [String.data]
    rw [List.getLast?_map]
    cases hlast : m.getLast? with
    | none => rfl
    | some x =>
      show (!pyIsSpace (Char.ofNat x).toNat) = true
      have hx : x ∈ m := List.mem_of_getLast?_eq_some hlast
      rw [toNat_ofNat_valid (hmval x hx)]
      rw [getLast?_pyRstripCps l x hlast]
      rfl

lemma mem_fsDedup {a : String} (l : List String) (h : a ∈ fsDedup l) : a ∈ l := by
  induction l using fsDedup.induct with
  | case1 => simp [fsDedup] at h
  | case2 x xs ih =>
    simp only [fsDedup, List.mem_cons] at h
    rcases h with h | h
    · exact h ▸ List.mem_cons_self x xs
    · exact List.mem_cons_of_mem x (List.mem_of_mem_filter (ih h))

lemma nodup_fsDedup (l : List String) : (fsDedup l).Nodup := by
  induction l using fsDedup.induct with
  | case1 => simp [fsDedup]
  | case2 x xs ih =>
    simp only [fsDedup]
    refine List.nodup_cons.mpr ⟨?_, ih⟩
    intro hx
    have := List.mem_filter.1 (mem_fsDedup _ hx)
    simp at this

lemma foldl_citStep (chunks : List Chunk) :
    ∀ acc, chunks.foldl citStep acc = (chunkTitles chunks).foldl tStep acc := by
  induction chunks with
  | nil => intro acc; rfl
  | cons ch rest ih =>
    intro acc
    cases hrc : ch.retrieved_context with
    | none =>
      simp only [List.foldl_cons, citStep, hrc, chunkTitles, List.filterMap_cons,
        Option.map_none']
      exact ih acc
    | some rc =>
      simp only [List.foldl_cons, citStep, hrc, chunkTitles, List.filterMap_cons,
        Option.map_some']
      exact ih (tStep acc (effTitle rc))

lemma foldl_tStep (ts : List String) :
    ∀ acc, ts.foldl tStep acc = acc ++ fsDedup (ts.filter (fun t => t ∉ acc)) := by
  induction ts with
  | nil => intro acc; simp [fsDedup]
  | cons t ts ih =>
    intro acc
    by_cases h : t ∈ acc
    · have hstep : tStep acc t = acc := by simp [tStep, h]
      have hfil : (t :: ts).filter (fun y => y ∉ acc) = ts.filter (fun y => y ∉ acc) := by
        simp [List.filter_cons, h]
      rw [List.foldl_cons, hstep, hfil]
      exact ih acc
    · have hstep : tStep acc t = acc ++ [t] := by simp [tStep, h]
      have hfil : ts.filter (fun y => y ∉ acc ++ [t]) =
          (ts.filter (fun y => y ∉ acc)).filter (fun y => y ≠ t) := by
        rw [List.filter_filter]
        apply List.filter_congr
        intro y hy
        by_cases hyt : y = t
        · simp [hyt, List.mem_append]
        · by_cases hya : y ∈ acc
          · simp [hyt, hya, List.mem_append]
          · simp [hyt, hya, List.mem_append]
      have hfilc : (t :: ts).filter (fun y => y ∉ acc) = t :: ts.filter (fun y => y ∉ acc) := by
        simp [List.filter_cons, h]
      rw [List.foldl_cons, hstep, hfilc, ih (acc ++ [t]), hfil]
      simp only [fsDedup]
      simp [List.append_assoc]

lemma collectCitations_eq (chunks : List Chunk) :
    collectCitations chunks = fsDedup (chunkTitles chunks) := by
  unfold collectCitations
  rw [foldl_citStep, foldl_tStep]
  simp

/-- C5: for a record whose Abstract field is present and truthy, the
builder emits exactly one abstract entry; its value is the UTF-8
encoding of the input truncated to the first 256 bytes, decoded with
the invalid truncated tail dropped and trailing whitespace stripped,
and that value re-encodes to at most 256 bytes and does not end in
whitespace. -/
theorem abstract_truncation (rec : Record) (ms : List MetaEntry)
    (hok : build_custom_metadata rec = .ok ms)
    (htr : rec.abstract.truthy = true) :
    MetaEntry.stringVal "abstract" (processAbstract (pyStr rec.abstract)) ∈ ms ∧
    (∀ v, MetaEntry.stringVal "abstract" v ∈ ms →
      v = processAbstract (pyStr rec.abstract)) ∧
    utf8ByteLen (processAbstract (pyStr rec.abstract)) ≤ 256 ∧
    noTrailingSpace (processAbstract (pyStr rec.abstract)) = true := by
  unfold build_custom_metadata at hok
  cases hy : yearEntries rec with
  | error e => rw [hy] at hok; simp at hok
  | ok ys =>
    rw [hy] at hok
    simp only [Except.ok.injEq] at hok
    subst hok
    have hys := yearEntries_shape rec ys hy
    have habs : optEntry rec.abstract.truthy
        (.stringVal "abstract" (processAbstract (pyStr rec.abstract))) =
        [.stringVal "abstract" (processAbstract (pyStr rec.abstract))] := by
      rw [htr]; rfl
    refine ⟨?_, ?_, (processAbstract_spec _).1, (processAbstract_spec _).2⟩
    · simp [List.mem_append, habs]
    · intro v hv
      simp only [List.mem_append] at hv
      rcases hv with ((((hm | hm) | hm) | hm) | hm)
      · obtain ⟨y, he⟩ := hys _ hm; simp at he
      · have := mem_optEntry hm; simp at this
      · have := mem_optEntry hm; simp at this
      · have := mem_optEntry hm
        simp only [MetaEntry.stringVal.injEq] at this
        exact this.2
      · have := mem_optEntry hm; simp at this

theorem abstract_truncation_witness :
    MetaEntry.stringVal "abstract" (processAbstract (pyStr (PyVal.vStr "ab "))) ∈
      [MetaEntry.stringVal "abstract" "ab"] ∧
    utf8ByteLen (processAbstract (pyStr (PyVal.vStr "ab "))) ≤ 256 ∧
    noTrailingSpace (processAbstract (pyStr (PyVal.vStr "ab "))) = true :=
  have h := abstract_truncation ⟨.vNone, .vNone, .vNone, .vStr "ab ", .vNone⟩
    [MetaEntry.stringVal "abstract" "ab"] rfl rfl
  ⟨h.1, h.2.2.1, h.2.2.2⟩

/-- C7: the citation list accumulated by the formatter is the
first-seen deduplication of the chunks' effective titles — each
distinct title appears exactly once, in first-seen order, with
"Unknown source" substituted for a retrieved context without a title —
so two chunks with the same title yield one listing. -/
theorem citations_dedup_first_seen (chunks : List Chunk) :
    collectCitations chunks = fsDedup (chunkTitles chunks) ∧
    (collectCitations chunks).Nodup ∧
    (∀ t, (collectCitations chunks).count t ≤ 1) ∧
    effTitle ⟨none⟩ = "Unknown source" := by
  have h1 := collectCitations_eq chunks
  have h2 : (collectCitations chunks).Nodup := h1 ▸ nodup_fsDedup _
  exact ⟨h1, h2, fun t => List.nodup_iff_count_le_one.1 h2 t, rfl⟩

end GOs
